import Mathlib

/-!
Verification of the workpluck task broker (`main.go`).

The Go program keeps two in-memory maps, `taskStore : map[string]Task` and
`resultStore : map[string]Result`, guarded by a single mutex, and exposes
four operations plus a diagnostic dump:

  * `handleTaskSubmit`   — decode a Task from the body, overwrite its
    `ID` (fresh uuid), `Status` (`"new"`), `Timestamp` (`time.Now()`),
    store it, return the id;
  * `handleRetrieveTask` — scan `taskStore` for a task with the requested
    topic whose status is `"new"`, or `"pending"` with
    `now - Timestamp > time.Hour`; mark it `"pending"` with
    `Timestamp = now` and return it, else report no content;
  * `handleSubmitResult` — if the task exists, mark it `"completed"` and
    store the result (overwriting); else 404 and no writes;
  * `handleGetResult`    — 404 if the task is missing, 202 if no result is
    stored yet, else the stored result;
  * `handleObserve`      — dump every task's id/status and every result's id.

We embed the store and the five operations as pure Lean functions.  The
`interface{}` payloads (`Input`, `Output`) are opaque to the program, so the
embedding is parametric in a payload type `α`.  Go `time.Time` is embedded
as a `Nat` count of nanoseconds; `time.Hour` is 3.6e12 nanoseconds and
`t1.Sub(t2) > time.Hour` becomes `t1 - t2 > timeHour` (Go's signed
subtraction and Nat's truncated subtraction agree on this strict
comparison against a positive bound).  Go maps are embedded as association
lists in iteration order: lookup finds the first entry with the key,
assignment replaces the first entry with the key in place or appends.
Since every map write in the program keys a task by its own `ID` field,
tasks are stored directly as a `List (Task α)` keyed by `.id` (and results
as a `List (Result α)` keyed by `.id`).
-/

namespace Workpluck

/-- Mirror of the Go `Task` struct: id, topic, opaque input payload, status
string (`"new"`, `"pending"`, `"completed"`), and the timestamp written at
submission and at each lease. -/
structure Task (α : Type) where
  id : String
  topic : String
  input : α
  status : String
  timestamp : Nat
  deriving Repr, DecidableEq

/-- Mirror of the Go `Result` struct: task id and opaque output payload. -/
structure Result (α : Type) where
  id : String
  output : α
  deriving Repr, DecidableEq

/-- The shared state: `taskStore` and `resultStore`, in map iteration
order. -/
structure Store (α : Type) where
  tasks : List (Task α)
  results : List (Result α)
  deriving Repr, DecidableEq

/-- The empty store (`make(map[string]Task)` / `make(map[string]Result)`). -/
def Store.empty (α : Type) : Store α := ⟨[], []⟩

/-- `taskStore[id]` lookup: first entry whose id matches. -/
def findTask : List (Task α) → String → Option (Task α)
  | [], _ => none
  | t :: ts, id => if t.id = id then some t else findTask ts id

/-- `resultStore[id]` lookup: first entry whose id matches. -/
def findResult : List (Result α) → String → Option (Result α)
  | [], _ => none
  | r :: rs, id => if r.id = id then some r else findResult rs id

/-- `taskStore[t.ID] = t`: replace the entry keyed `t.id` in place, or
append when the key is absent. -/
def setTask : List (Task α) → Task α → List (Task α)
  | [], t => [t]
  | u :: us, t => if u.id = t.id then t :: us else u :: setTask us t

/-- `resultStore[r.ID] = r`: replace in place or append. -/
def setResult : List (Result α) → Result α → List (Result α)
  | [], r => [r]
  | u :: us, r => if u.id = r.id then r :: us else u :: setResult us r

/-- `time.Hour` in nanoseconds. -/
def timeHour : Nat := 3600000000000

/-- The lease TTL is fixed at one hour. -/
def leaseTTL : Nat := timeHour

/-- The eligibility test of `handleRetrieveTask` (main.go line 288):
`task.Topic == topic && (task.Status == "new" || (task.Status == "pending"
&& currentTime.Sub(task.Timestamp) > time.Hour))`. -/
def eligible (t : Task α) (topic : String) (now : Nat) : Bool :=
  t.topic == topic &&
    (t.status == "new" || (t.status == "pending" && now - t.timestamp > timeHour))

/-- `handleTaskSubmit` (main.go lines 238–252): the decoded request `req`
has its `ID`, `Status` and `Timestamp` overwritten with the fresh uuid,
`"new"` and the current time, and is stored; the fresh id is returned. -/
def submitTask (s : Store α) (req : Task α) (freshId : String) (now : Nat) :
    String × Store α :=
  let t : Task α := { req with id := freshId, status := "new", timestamp := now }
  (freshId, { s with tasks := setTask s.tasks t })

/-- The scan loop of `handleRetrieveTask` (main.go lines 287–300): walk the
entries in iteration order; at the first eligible task, set its status to
`"pending"` and its timestamp to `now`, write it back in place, and return
it; if none matches, return `none` and leave the list as it was. -/
def leaseScan (topic : String) (now : Nat) :
    List (Task α) → Option (Task α) × List (Task α)
  | [] => (none, [])
  | t :: ts =>
    if eligible t topic now then
      let t' : Task α := { t with status := "pending", timestamp := now }
      (some t', t' :: ts)
    else
      let p := leaseScan topic now ts
      (p.1, t :: p.2)

/-- `handleRetrieveTask` (main.go lines 283–304): the scan-and-update runs
under the store mutex; `resultStore` is untouched. -/
def leaseTask (s : Store α) (topic : String) (now : Nat) :
    Option (Task α) × Store α :=
  let p := leaseScan topic now s.tasks
  (p.1, { s with tasks := p.2 })

/-- Outcome of `handleSubmitResult` at the transport boundary. -/
inductive SubmitOutcome
  | ok
  | taskNotFound
  deriving Repr, DecidableEq

/-- `handleSubmitResult` (main.go lines 326–341): if no task with the
result's id exists, report 404 and write nothing; otherwise set that
task's status to `"completed"`, write it back, and store the result
(overwriting any previous result for the id). -/
def submitResult (s : Store α) (req : Result α) : SubmitOutcome × Store α :=
  match findTask s.tasks req.id with
  | none => (.taskNotFound, s)
  | some task =>
    let task' : Task α := { task with status := "completed" }
    (.ok, { tasks := setTask s.tasks task', results := setResult s.results req })

/-- Outcome of `handleGetResult` at the transport boundary. -/
inductive GetOutcome (α : Type)
  | found (r : Result α)
  | pending
  | taskNotFound
  deriving Repr, DecidableEq

/-- `handleGetResult` (main.go lines 365–390): look up the result and the
task; 404 when the task is missing, 202 (`pending`) when the task exists
but no result does, else the stored result.  No writes. -/
def getResult (s : Store α) (id : String) : GetOutcome α × Store α :=
  let result := findResult s.results id
  let taskExists := (findTask s.tasks id).isSome
  if ¬ taskExists then (.taskNotFound, s)
  else
    match result with
    | none => (.pending, s)
    | some r => (.found r, s)

/-- `handleObserve` (main.go lines 418–435): dump every task's id and
status and every result's id; no writes. -/
def observe (s : Store α) : (List (String × String) × List String) × Store α :=
  ((s.tasks.map (fun t => (t.id, t.status)), s.results.map (fun r => r.id)), s)

/-- One atomic operation of the server against the store: every handler
runs its store access under the single `storeMutex`, so the possible state
changes are exactly these.  `submitTask`'s uuid is assumed fresh (the
store-side meaning of "allocates a new globally-unique id"). -/
inductive Step {α : Type} : Store α → Store α → Prop
  | submit (s : Store α) (req : Task α) (freshId : String) (now : Nat)
      (hfresh : findTask s.tasks freshId = none) :
      Step s (submitTask s req freshId now).2
  | lease (s : Store α) (topic : String) (now : Nat) :
      Step s (leaseTask s topic now).2
  | result (s : Store α) (req : Result α) :
      Step s (submitResult s req).2
  | get (s : Store α) (id : String) :
      Step s (getResult s id).2
  | observe (s : Store α) :
      Step s (observe s).2

/-- Store states reachable from the empty store by server operations. -/
inductive Reachable {α : Type} : Store α → Prop
  | empty : Reachable (Store.empty α)
  | step {s s' : Store α} : Reachable s → Step s s' → Reachable s'

/-! ### Lemmas about the embedded map operations -/

theorem eligible_iff (t : Task α) (topic : String) (now : Nat) :
    eligible t topic now = true ↔
      t.topic = topic ∧
        (t.status = "new" ∨ (t.status = "pending" ∧ now - t.timestamp > timeHour)) := by
  simp [eligible, Bool.and_eq_true, Bool.or_eq_true, decide_eq_true_eq]

theorem findTask_setTask_same (l : List (Task α)) (t : Task α) :
    findTask (setTask l t) t.id = some t := by
  induction l with
  | nil => simp [findTask, setTask]
  | cons u us ih =>
    by_cases h : u.id = t.id
    · simp [findTask, setTask, h]
    · simp [findTask, setTask, h, ih]

theorem findTask_setTask_other (l : List (Task α)) (t : Task α) (key : String)
    (h : key ≠ t.id) :
    findTask (setTask l t) key = findTask l key := by
  have ht : t.id ≠ key := fun e => h e.symm
  induction l with
  | nil => simp [findTask, setTask, ht]
  | cons u us ih =>
    by_cases hu : u.id = t.id
    · have hk : u.id ≠ key := hu ▸ ht
      simp [findTask, setTask, hu, hk, ht]
    · by_cases hk : u.id = key
      · simp [findTask, setTask, hu, hk, h]
      · simp [findTask, setTask, hu, hk, ih]

theorem setTask_of_fresh (l : List (Task α)) (t : Task α)
    (h : findTask l t.id = none) : setTask l t = l ++ [t] := by
  induction l with
  | nil => simp [setTask]
  | cons u us ih =>
    by_cases hu : u.id = t.id
    · simp [findTask, hu] at h
    · simp only [findTask, if_neg hu] at h
      simp [setTask, hu, ih h]

theorem findResult_setResult_same (l : List (Result α)) (r : Result α) :
    findResult (setResult l r) r.id = some r := by
  induction l with
  | nil => simp [findResult, setResult]
  | cons u us ih =>
    by_cases h : u.id = r.id
    · simp [findResult, setResult, h]
    · simp [findResult, setResult, h, ih]

theorem mem_setResult (l : List (Result α)) (r x : Result α)
    (hx : x ∈ setResult l r) : x = r ∨ x ∈ l := by
  induction l with
  | nil => simpa [setResult] using hx
  | cons u us ih =>
    by_cases h : u.id = r.id
    · simp only [setResult, if_pos h, List.mem_cons] at hx
      rcases hx with hx | hx
      · exact .inl hx
      · exact .inr (by simp [hx])
    · simp only [setResult, if_neg h, List.mem_cons] at hx
      rcases hx with hx | hx
      · exact .inr (by simp [hx])
      · rcases ih hx with hx | hx
        · exact .inl hx
        · exact .inr (by simp [hx])

theorem findTask_isSome_setTask (l : List (Task α)) (t : Task α) (key : String)
    (h : (findTask l key).isSome = true) :
    (findTask (setTask l t) key).isSome = true := by
  by_cases hk : key = t.id
  · rw [hk, findTask_setTask_same]; rfl
  · rw [findTask_setTask_other l t key hk]; exact h

/-- Where a single in-place replacement (same key) leaves `find?`: either the
lookup is untouched, or it returned the replaced entry and now returns the
replacement. -/
theorem findTask_append_cons (l₁ l₂ : List (Task α)) (t t' : Task α)
    (hid : t'.id = t.id) (key : String) :
    (findTask (l₁ ++ t' :: l₂) key = findTask (l₁ ++ t :: l₂) key) ∨
      (findTask (l₁ ++ t :: l₂) key = some t ∧
        findTask (l₁ ++ t' :: l₂) key = some t') := by
  induction l₁ with
  | nil =>
    by_cases ht : t.id = key
    · right
      constructor
      · simp [findTask, ht]
      · simp [findTask, hid.trans ht]
    · left
      simp [findTask, ht, hid ▸ ht]
  | cons u us ih =>
    by_cases hk : u.id = key
    · left; simp [findTask, hk]
    · rcases ih with ihl | ⟨ih₁, ih₂⟩
      · left; simp [findTask, hk, ihl]
      · right
        constructor
        · simp [findTask, hk, ih₁]
        · simp [findTask, hk, ih₂]

/-! ### The scan loop of `handleRetrieveTask` -/

theorem leaseScan_none_iff (topic : String) (now : Nat) (l : List (Task α)) :
    (leaseScan topic now l).1 = none ↔ ∀ t ∈ l, eligible t topic now = false := by
  induction l with
  | nil => simp [leaseScan]
  | cons t ts ih =>
    cases helig : eligible t topic now with
    | true => simp [leaseScan, helig]
    | false => simp [leaseScan, helig, ih]

theorem leaseScan_none_snd (topic : String) (now : Nat) (l : List (Task α))
    (h : (leaseScan topic now l).1 = none) : (leaseScan topic now l).2 = l := by
  induction l with
  | nil => simp [leaseScan]
  | cons t ts ih =>
    cases helig : eligible t topic now with
    | true => simp [leaseScan, helig] at h
    | false =>
      simp only [leaseScan, helig, Bool.false_eq_true, if_false] at h ⊢
      simp only [List.cons.injEq, true_and]
      exact ih h

theorem leaseScan_some (topic : String) (now : Nat) (l : List (Task α))
    (t' : Task α) (h : (leaseScan topic now l).1 = some t') :
    ∃ l₁ t l₂, l = l₁ ++ t :: l₂ ∧
      (∀ u ∈ l₁, eligible u topic now = false) ∧
      eligible t topic now = true ∧
      t' = { t with status := "pending", timestamp := now } ∧
      (leaseScan topic now l).2 = l₁ ++ t' :: l₂ := by
  induction l with
  | nil => simp [leaseScan] at h
  | cons u us ih =>
    cases helig : eligible u topic now with
    | true =>
      simp only [leaseScan, helig, if_true, Option.some.injEq] at h
      exact ⟨[], u, us, rfl, by simp, helig, h.symm, by simp [leaseScan, helig, h]⟩
    | false =>
      simp only [leaseScan, helig, Bool.false_eq_true, if_false] at h
      obtain ⟨l₁, t, l₂, hl, hl₁, he, ht', hsnd⟩ := ih h
      refine ⟨u :: l₁, t, l₂, by simp [hl], ?_, he, ht', ?_⟩
      · intro v hv
        rcases List.mem_cons.mp hv with hv | hv
        · exact hv ▸ helig
        · exact hl₁ v hv
      · simp only [leaseScan, helig, Bool.false_eq_true, if_false,
          List.cons_append, List.cons.injEq, true_and]
        exact hsnd

theorem findTask_some_id (l : List (Task α)) (key : String) (u : Task α)
    (h : findTask l key = some u) : u.id = key := by
  induction l with
  | nil => simp [findTask] at h
  | cons v vs ih =>
    by_cases hv : v.id = key
    · simp only [findTask, if_pos hv, Option.some.injEq] at h
      rw [← h]; exact hv
    · simp only [findTask, if_neg hv] at h
      exact ih h

theorem getResult_snd (s : Store α) (id : String) : (getResult s id).2 = s := by
  cases htask : findTask s.tasks id with
  | none => simp [getResult, htask]
  | some task =>
    cases hres : findResult s.results id with
    | none => simp [getResult, htask, hres]
    | some r => simp [getResult, htask, hres]

/-! ### Claim theorems -/

/-- C1: `lease_task(topic)` returns a task if and only if the store holds a
task of that topic whose status is `"new"`, or `"pending"` with
`now - lease_time` strictly greater than one hour; on a match that task's
status becomes `"pending"`, its timestamp becomes `now`, and the full
updated task (same id and input) is returned, all other tasks and the
results untouched; on no match it returns `none` and the store is
unchanged.  The matched task's topic equals the request's, it is never
`"completed"`, and if it was `"pending"` its lease had strictly exceeded
the one-hour TTL. -/
theorem leaseTask_spec (s : Store α) (topic : String) (now : Nat) :
    ((leaseTask s topic now).1 = none →
      (∀ t ∈ s.tasks, eligible t topic now = false) ∧ (leaseTask s topic now).2 = s)
    ∧ ((∃ t ∈ s.tasks, eligible t topic now = true) →
        (leaseTask s topic now).1.isSome = true)
    ∧ (∀ t', (leaseTask s topic now).1 = some t' →
        ∃ l₁ t l₂, s.tasks = l₁ ++ t :: l₂ ∧
          (∀ u ∈ l₁, eligible u topic now = false) ∧
          eligible t topic now = true ∧
          t.topic = topic ∧
          t.status ≠ "completed" ∧
          (t.status = "pending" → now - t.timestamp > timeHour) ∧
          t' = { t with status := "pending", timestamp := now } ∧
          (leaseTask s topic now).2 = ⟨l₁ ++ t' :: l₂, s.results⟩) := by
  refine ⟨?_, ?_, ?_⟩
  · intro h
    have h' : (leaseScan topic now s.tasks).1 = none := h
    refine ⟨(leaseScan_none_iff topic now s.tasks).mp h', ?_⟩
    show ({ s with tasks := (leaseScan topic now s.tasks).2 } : Store α) = s
    rw [leaseScan_none_snd topic now s.tasks h']
  · rintro ⟨t, ht, he⟩
    cases hs : (leaseTask s topic now).1 with
    | some t' => rfl
    | none =>
      have hno : (leaseScan topic now s.tasks).1 = none := hs
      have := (leaseScan_none_iff topic now s.tasks).mp hno t ht
      rw [he] at this
      exact absurd this (by decide)
  · intro t' h
    obtain ⟨l₁, t, l₂, hl, hl₁, he, ht', hsnd⟩ :=
      leaseScan_some topic now s.tasks t' h
    have hdec := (eligible_iff t topic now).mp he
    refine ⟨l₁, t, l₂, hl, hl₁, he, hdec.1, ?_, ?_, ht', ?_⟩
    · rcases hdec.2 with h1 | h1
      · rw [h1]; decide
      · rw [h1.1]; decide
    · intro hp
      rcases hdec.2 with h1 | h1
      · rw [hp] at h1; exact absurd h1 (by decide)
      · exact h1.2
    · show ({ s with tasks := (leaseScan topic now s.tasks).2 } : Store α) = _
      rw [hsnd]

/-- C1 witness: a concrete lease on a one-task store. -/
theorem leaseTask_spec_witness :
    ∃ l₁ t l₂,
      (⟨[⟨"a", "t", "x", "new", 0⟩], []⟩ : Store String).tasks = l₁ ++ t :: l₂ ∧
      (∀ u ∈ l₁, eligible u "t" 7 = false) ∧
      eligible t "t" 7 = true ∧
      t.topic = "t" ∧
      t.status ≠ "completed" ∧
      (t.status = "pending" → 7 - t.timestamp > timeHour) ∧
      (⟨"a", "t", "x", "pending", 7⟩ : Task String)
        = { t with status := "pending", timestamp := 7 } ∧
      (leaseTask (⟨[⟨"a", "t", "x", "new", 0⟩], []⟩ : Store String) "t" 7).2
        = ⟨l₁ ++ (⟨"a", "t", "x", "pending", 7⟩ : Task String) :: l₂, []⟩ :=
  (leaseTask_spec (⟨[⟨"a", "t", "x", "new", 0⟩], []⟩ : Store String) "t" 7).2.2
    ⟨"a", "t", "x", "pending", 7⟩ (by decide)

/-- C3: `get_result(id)` reports `task_not_found` exactly when no task with
that id exists, `pending` exactly when the task exists but no result record
does (the test is result presence, not task status), and otherwise the
stored result; it never modifies the store; and immediately after
`submit_result(id, out)` on an existing task it returns exactly `out`. -/
theorem getResult_spec (s : Store α) (id : String) :
    ((getResult s id).1 = GetOutcome.taskNotFound ↔ findTask s.tasks id = none)
    ∧ ((getResult s id).1 = GetOutcome.pending ↔
        (findTask s.tasks id).isSome = true ∧ findResult s.results id = none)
    ∧ (∀ r, (findTask s.tasks id).isSome = true → findResult s.results id = some r →
        (getResult s id).1 = GetOutcome.found r)
    ∧ (getResult s id).2 = s
    ∧ (∀ out : α, ∀ task, findTask s.tasks id = some task →
        (getResult (submitResult s ⟨id, out⟩).2 id).1 = GetOutcome.found ⟨id, out⟩) := by
  refine ⟨?_, ?_, ?_, getResult_snd s id, ?_⟩
  · cases htask : findTask s.tasks id with
    | none => simp [getResult, htask]
    | some task => cases hres : findResult s.results id <;> simp [getResult, htask, hres]
  · cases htask : findTask s.tasks id with
    | none => simp [getResult, htask]
    | some task => cases hres : findResult s.results id <;> simp [getResult, htask, hres]
  · intro r htask hres
    cases ht : findTask s.tasks id with
    | none => simp [ht] at htask
    | some task => simp [getResult, ht, hres]
  · intro out task htask
    have hid : task.id = id := findTask_some_id s.tasks id task htask
    have h1 : findTask (setTask s.tasks { task with status := "completed" }) id
        = some { task with status := "completed" } := by
      have := findTask_setTask_same s.tasks { task with status := "completed" }
      simpa [hid] using this
    have h2 : findResult (setResult s.results ⟨id, out⟩) id = some ⟨id, out⟩ :=
      findResult_setResult_same s.results ⟨id, out⟩
    simp [submitResult, htask, getResult, h1, h2]

/-- C3 witness: a store with one completed task and its result. -/
theorem getResult_spec_witness :
    ((getResult (⟨[⟨"a", "t", "x", "completed", 0⟩], [⟨"a", "y"⟩]⟩ : Store String)
        "a").1 = GetOutcome.taskNotFound ↔
      findTask (⟨[⟨"a", "t", "x", "completed", 0⟩], [⟨"a", "y"⟩]⟩ :
        Store String).tasks "a" = none) ∧
    (((getResult (⟨[⟨"a", "t", "x", "completed", 0⟩], [⟨"a", "y"⟩]⟩ : Store String)
        "a").1 = GetOutcome.pending ↔
      (findTask (⟨[⟨"a", "t", "x", "completed", 0⟩], [⟨"a", "y"⟩]⟩ :
          Store String).tasks "a").isSome = true ∧
        findResult (⟨[⟨"a", "t", "x", "completed", 0⟩], [⟨"a", "y"⟩]⟩ :
          Store String).results "a" = none)) ∧
    (∀ r, (findTask (⟨[⟨"a", "t", "x", "completed", 0⟩], [⟨"a", "y"⟩]⟩ :
          Store String).tasks "a").isSome = true →
        findResult (⟨[⟨"a", "t", "x", "completed", 0⟩], [⟨"a", "y"⟩]⟩ :
          Store String).results "a" = some r →
        (getResult (⟨[⟨"a", "t", "x", "completed", 0⟩], [⟨"a", "y"⟩]⟩ : Store String)
          "a").1 = GetOutcome.found r) ∧
    (getResult (⟨[⟨"a", "t", "x", "completed", 0⟩], [⟨"a", "y"⟩]⟩ : Store String)
        "a").2 = ⟨[⟨"a", "t", "x", "completed", 0⟩], [⟨"a", "y"⟩]⟩ ∧
    (∀ out : String, ∀ task,
        findTask (⟨[⟨"a", "t", "x", "completed", 0⟩], [⟨"a", "y"⟩]⟩ :
          Store String).tasks "a" = some task →
        (getResult (submitResult (⟨[⟨"a", "t", "x", "completed", 0⟩], [⟨"a", "y"⟩]⟩ :
            Store String) ⟨"a", out⟩).2 "a").1 = GetOutcome.found ⟨"a", out⟩) :=
  getResult_spec (⟨[⟨"a", "t", "x", "completed", 0⟩], [⟨"a", "y"⟩]⟩ : Store String) "a"

/-- C4: `submit_result` on an id with no task reports `task_not_found` and
leaves the store completely unchanged. -/
theorem submitResult_not_found (s : Store α) (req : Result α)
    (h : findTask s.tasks req.id = none) :
    (submitResult s req).1 = SubmitOutcome.taskNotFound ∧
      (submitResult s req).2 = s := by
  simp [submitResult, h]

/-- C4 witness: submitting a result into the empty store. -/
theorem submitResult_not_found_witness :
    findTask (Store.empty String).tasks "a" = none ∧
    (submitResult (Store.empty String) ⟨"a", "x"⟩).1 = SubmitOutcome.taskNotFound ∧
    (submitResult (Store.empty String) ⟨"a", "x"⟩).2 = Store.empty String :=
  ⟨rfl, submitResult_not_found (Store.empty String) ⟨"a", "x"⟩ rfl⟩

/-- C5: whenever a task with the result's id exists — whatever its status —
`submit_result` succeeds, marks that task `"completed"`, and stores the
result; a second `submit_result` for the same id also succeeds, replaces
the stored output (last write wins), and the task stays `"completed"`. -/
theorem submitResult_spec (s : Store α) (req : Result α) (task : Task α)
    (h : findTask s.tasks req.id = some task) :
    (submitResult s req).1 = SubmitOutcome.ok
    ∧ findTask (submitResult s req).2.tasks req.id
        = some { task with status := "completed" }
    ∧ findResult (submitResult s req).2.results req.id = some req
    ∧ (∀ req₂ : Result α, req₂.id = req.id →
        (submitResult (submitResult s req).2 req₂).1 = SubmitOutcome.ok
        ∧ findResult (submitResult (submitResult s req).2 req₂).2.results req.id
            = some req₂
        ∧ findTask (submitResult (submitResult s req).2 req₂).2.tasks req.id
            = some { task with status := "completed" }) := by
  have hid : task.id = req.id := findTask_some_id s.tasks req.id task h
  have h1 : findTask (setTask s.tasks { task with status := "completed" }) req.id
      = some { task with status := "completed" } := by
    have := findTask_setTask_same s.tasks { task with status := "completed" }
    simpa [hid] using this
  have h2 : findResult (setResult s.results req) req.id = some req :=
    findResult_setResult_same s.results req
  refine ⟨by simp [submitResult, h], by simpa [submitResult, h] using h1,
    by simpa [submitResult, h] using h2, ?_⟩
  intro req₂ hq
  have hfind₂ : findTask (setTask s.tasks { task with status := "completed" }) req₂.id
      = some { task with status := "completed" } := by rw [hq]; exact h1
  have h3 : findResult (setResult (setResult s.results req) req₂) req.id
      = some req₂ := by
    have := findResult_setResult_same (setResult s.results req) req₂
    rwa [hq] at this
  have h4 : findTask
      (setTask (setTask s.tasks { task with status := "completed" })
        { task with status := "completed" }) req.id
      = some { task with status := "completed" } := by
    have := findTask_setTask_same (setTask s.tasks { task with status := "completed" })
      { task with status := "completed" }
    simpa [hid] using this
  refine ⟨?_, ?_, ?_⟩
  · simp [submitResult, h, hfind₂]
  · simpa [submitResult, h, hfind₂] using h3
  · simpa [submitResult, h, hfind₂] using h4

/-- C5 witness: double submission onto a one-task store. -/
theorem submitResult_spec_witness :
    (submitResult (⟨[⟨"a", "t", "x", "new", 0⟩], []⟩ : Store String) ⟨"a", "y"⟩).1
        = SubmitOutcome.ok
    ∧ findTask (submitResult (⟨[⟨"a", "t", "x", "new", 0⟩], []⟩ : Store String)
          ⟨"a", "y"⟩).2.tasks "a"
        = some { (⟨"a", "t", "x", "new", 0⟩ : Task String) with status := "completed" }
    ∧ findResult (submitResult (⟨[⟨"a", "t", "x", "new", 0⟩], []⟩ : Store String)
          ⟨"a", "y"⟩).2.results "a" = some ⟨"a", "y"⟩
    ∧ (∀ req₂ : Result String, req₂.id = "a" →
        (submitResult (submitResult (⟨[⟨"a", "t", "x", "new", 0⟩], []⟩ : Store String)
            ⟨"a", "y"⟩).2 req₂).1 = SubmitOutcome.ok
        ∧ findResult (submitResult (submitResult
            (⟨[⟨"a", "t", "x", "new", 0⟩], []⟩ : Store String) ⟨"a", "y"⟩).2
            req₂).2.results "a" = some req₂
        ∧ findTask (submitResult (submitResult
            (⟨[⟨"a", "t", "x", "new", 0⟩], []⟩ : Store String) ⟨"a", "y"⟩).2
            req₂).2.tasks "a"
            = some { (⟨"a", "t", "x", "new", 0⟩ : Task String) with
                status := "completed" }) :=
  submitResult_spec (⟨[⟨"a", "t", "x", "new", 0⟩], []⟩ : Store String) ⟨"a", "y"⟩
    ⟨"a", "t", "x", "new", 0⟩ (by decide)

theorem status_ne_same (u : Task α) :
    ¬(u.status = "completed" ∧ u.status = "pending")
    ∧ ¬(u.status = "pending" ∧ u.status = "new") := by
  constructor
  · rintro ⟨h1, h2⟩; rw [h1] at h2; exact absurd h2 (by decide)
  · rintro ⟨h1, h2⟩; rw [h1] at h2; exact absurd h2 (by decide)

theorem status_pairs_of_eq (u u' : Task α) (h : u = u') :
    ¬(u.status = "completed" ∧ u'.status = "pending")
    ∧ ¬(u.status = "pending" ∧ u'.status = "new") := by
  subst h; exact status_ne_same u

theorem status_pairs_of_completed (u u' : Task α) (h : u'.status = "completed") :
    ¬(u.status = "completed" ∧ u'.status = "pending")
    ∧ ¬(u.status = "pending" ∧ u'.status = "new") := by
  constructor
  · rintro ⟨_, h2⟩; rw [h] at h2; exact absurd h2 (by decide)
  · rintro ⟨_, h2⟩; rw [h] at h2; exact absurd h2 (by decide)

theorem status_pairs_of_lease (u u' : Task α) (hne : u.status ≠ "completed")
    (h' : u'.status = "pending") :
    ¬(u.status = "completed" ∧ u'.status = "pending")
    ∧ ¬(u.status = "pending" ∧ u'.status = "new") := by
  constructor
  · rintro ⟨hc, _⟩; exact hne hc
  · rintro ⟨_, hn⟩; rw [h'] at hn; exact absurd hn (by decide)

/-- C6: along every store operation the status of a task (looked up by id)
never moves from `"completed"` back to `"pending"`, nor from `"pending"`
back to `"new"`. -/
theorem status_monotonic (s s' : Store α) (hstep : Step s s') (id : String)
    (u u' : Task α) (hu : findTask s.tasks id = some u)
    (hu' : findTask s'.tasks id = some u') :
    ¬(u.status = "completed" ∧ u'.status = "pending")
    ∧ ¬(u.status = "pending" ∧ u'.status = "new") := by
  cases hstep with
  | submit req freshId now hfresh =>
    by_cases hk : id = freshId
    · rw [hk, hfresh] at hu; cases hu
    · have heq : findTask (submitTask s req freshId now).2.tasks id
          = findTask s.tasks id :=
        findTask_setTask_other s.tasks _ id hk
      rw [heq, hu] at hu'
      exact status_pairs_of_eq u u' (Option.some.inj hu')
  | lease topic now =>
    cases hscan : (leaseScan topic now s.tasks).1 with
    | none =>
      have hs : (leaseTask s topic now).2.tasks = s.tasks :=
        leaseScan_none_snd topic now s.tasks hscan
      rw [hs, hu] at hu'
      exact status_pairs_of_eq u u' (Option.some.inj hu')
    | some t' =>
      obtain ⟨l₁, t, l₂, hl, hl₁, he, ht', hsnd⟩ :=
        leaseScan_some topic now s.tasks t' hscan
      have hid : t'.id = t.id := by rw [ht']
      have hsplit := findTask_append_cons l₁ l₂ t t' hid id
      have hs' : (leaseTask s topic now).2.tasks = l₁ ++ t' :: l₂ := hsnd
      rw [hs'] at hu'
      rw [hl] at hu
      rcases hsplit with heq | ⟨h1, h2⟩
      · rw [heq, hu] at hu'
        exact status_pairs_of_eq u u' (Option.some.inj hu')
      · rw [hu] at h1
        rw [hu'] at h2
        have hut : u = t := Option.some.inj h1
        have hut' : u' = t' := Option.some.inj h2
        have hne : u.status ≠ "completed" := by
          rw [hut]
          rcases ((eligible_iff t topic now).mp he).2 with h3 | h3
          · rw [h3]; decide
          · rw [h3.1]; decide
        have hp : u'.status = "pending" := by rw [hut', ht']
        exact status_pairs_of_lease u u' hne hp
  | result req =>
    cases hf : findTask s.tasks req.id with
    | none =>
      have hs : (submitResult s req).2 = s := by simp [submitResult, hf]
      rw [hs, hu] at hu'
      exact status_pairs_of_eq u u' (Option.some.inj hu')
    | some task =>
      have hs : (submitResult s req).2.tasks
          = setTask s.tasks { task with status := "completed" } := by
        simp [submitResult, hf]
      rw [hs] at hu'
      have hid : task.id = req.id := findTask_some_id s.tasks req.id task hf
      by_cases hk : id = req.id
      · have hsame : findTask (setTask s.tasks { task with status := "completed" }) id
            = some { task with status := "completed" } := by
          have := findTask_setTask_same s.tasks { task with status := "completed" }
          rw [hk]
          simpa [hid] using this
        rw [hsame] at hu'
        have : u' = { task with status := "completed" } := Option.some.inj hu'.symm
        exact status_pairs_of_completed u u' (by rw [this])
      · have heq : findTask (setTask s.tasks { task with status := "completed" }) id
            = findTask s.tasks id :=
          findTask_setTask_other s.tasks _ id (by simpa [hid] using hk)
        rw [heq, hu] at hu'
        exact status_pairs_of_eq u u' (Option.some.inj hu')
  | get gid =>
    rw [getResult_snd s gid, hu] at hu'
    exact status_pairs_of_eq u u' (Option.some.inj hu')
  | observe =>
    have hs : (Workpluck.observe s).2 = s := rfl
    rw [hs, hu] at hu'
    exact status_pairs_of_eq u u' (Option.some.inj hu')

/-- C6 witness: leasing a `"new"` task turns it `"pending"`, which is a
permitted transition. -/
theorem status_monotonic_witness :
    ¬((Task.status (α := String) ⟨"a", "t", "x", "new", 0⟩) = "completed"
        ∧ (Task.status (α := String) ⟨"a", "t", "x", "pending", 7⟩) = "pending")
    ∧ ¬((Task.status (α := String) ⟨"a", "t", "x", "new", 0⟩) = "pending"
        ∧ (Task.status (α := String) ⟨"a", "t", "x", "pending", 7⟩) = "new") :=
  status_monotonic (⟨[⟨"a", "t", "x", "new", 0⟩], []⟩ : Store String)
    (leaseTask (⟨[⟨"a", "t", "x", "new", 0⟩], []⟩ : Store String) "t" 7).2
    (Step.lease _ "t" 7) "a" ⟨"a", "t", "x", "new", 0⟩ ⟨"a", "t", "x", "pending", 7⟩
    (by decide) (by decide)

/-- C7: in every store state reachable from the empty store by server
operations, every stored result's id also names a stored task. -/
theorem referential_integrity (s : Store α) (h : Reachable s) :
    ∀ r ∈ s.results, (findTask s.tasks r.id).isSome = true := by
  induction h with
  | empty => intro r hr; simp [Store.empty] at hr
  | step hreach hstep ih =>
    rename_i s₀ s₁
    cases hstep with
    | submit req freshId now hfresh =>
      intro r hr
      exact findTask_isSome_setTask s₀.tasks _ r.id (ih r hr)
    | lease topic now =>
      intro r hr
      have h0 := ih r hr
      cases hscan : (leaseScan topic now s₀.tasks).1 with
      | none =>
        have hs : (leaseTask s₀ topic now).2.tasks = s₀.tasks :=
          leaseScan_none_snd topic now s₀.tasks hscan
        rw [hs]
        exact h0
      | some t' =>
        obtain ⟨l₁, t, l₂, hl, hl₁, he, ht', hsnd⟩ :=
          leaseScan_some topic now s₀.tasks t' hscan
        have hs : (leaseTask s₀ topic now).2.tasks = l₁ ++ t' :: l₂ := hsnd
        rw [hs]
        have hid : t'.id = t.id := by rw [ht']
        rcases findTask_append_cons l₁ l₂ t t' hid r.id with heq | ⟨h1, h2⟩
        · rw [heq, ← hl]; exact h0
        · rw [h2]; rfl
    | result req =>
      intro r hr
      cases hf : findTask s₀.tasks req.id with
      | none =>
        have hs : (submitResult s₀ req).2 = s₀ := by simp [submitResult, hf]
        rw [hs] at hr ⊢
        exact ih r hr
      | some task =>
        have hs2 : (submitResult s₀ req).2.results = setResult s₀.results req := by
          simp [submitResult, hf]
        have hs1 : (submitResult s₀ req).2.tasks
            = setTask s₀.tasks { task with status := "completed" } := by
          simp [submitResult, hf]
        rw [hs2] at hr
        rw [hs1]
        rcases mem_setResult s₀.results req r hr with hreq | hmem
        · have hid : task.id = req.id := findTask_some_id s₀.tasks req.id task hf
          have h1 : findTask (setTask s₀.tasks { task with status := "completed" })
              req.id = some { task with status := "completed" } := by
            have := findTask_setTask_same s₀.tasks { task with status := "completed" }
            simpa [hid] using this
          rw [hreq, h1]
          rfl
        · exact findTask_isSome_setTask s₀.tasks _ r.id (ih r hmem)
    | get gid =>
      intro r hr
      rw [getResult_snd s₀ gid] at hr ⊢
      exact ih r hr
    | observe =>
      intro r hr
      exact ih r hr

/-- C7 witness: submit a task, then its result; the result's id has a
task. -/
theorem referential_integrity_witness :
    (findTask (submitResult (submitTask (Store.empty String) ⟨"", "t", "x", "", 0⟩
        "id1" 5).2 ⟨"id1", "y"⟩).2.tasks "id1").isSome = true :=
  referential_integrity _
    (Reachable.step
      (Reachable.step Reachable.empty
        (Step.submit (Store.empty String) ⟨"", "t", "x", "", 0⟩ "id1" 5 rfl))
      (Step.result _ ⟨"id1", "y"⟩))
    ⟨"id1", "y"⟩ (by decide)

/-- C2: the mutex makes each `lease_task` call's scan-and-update atomic, so
two concurrent calls are exactly the two serialized executions (both read
essentially the same clock).  When the store holds exactly one eligible
task for the topic, the first serialized call receives a task and the
second receives none: both callers can never claim the same task within
one lease window. -/
theorem leaseTask_mutual_exclusion (s : Store α) (topic : String) (now : Nat)
    (huniq : s.tasks.countP (fun t => eligible t topic now) = 1) :
    (leaseTask s topic now).1.isSome = true
    ∧ (leaseTask (leaseTask s topic now).2 topic now).1 = none := by
  cases hscan : (leaseScan topic now s.tasks).1 with
  | none =>
    exfalso
    have hall := (leaseScan_none_iff topic now s.tasks).mp hscan
    have hzero : s.tasks.countP (fun t => eligible t topic now) = 0 := by
      rw [List.countP_eq_zero]
      intro a ha
      simp [hall a ha]
    rw [hzero] at huniq
    exact absurd huniq (by decide)
  | some t' =>
    obtain ⟨l₁, t, l₂, hl, hl₁, he, ht', hsnd⟩ :=
      leaseScan_some topic now s.tasks t' hscan
    have hfst : (leaseTask s topic now).1 = some t' := hscan
    have hl₁zero : l₁.countP (fun u => eligible u topic now) = 0 := by
      rw [List.countP_eq_zero]
      intro a ha
      simp [hl₁ a ha]
    have hl₂zero : l₂.countP (fun u => eligible u topic now) = 0 := by
      rw [hl, List.countP_append, hl₁zero, List.countP_cons_of_pos _ _ (by simpa using he)]
        at huniq
      omega
    have hl₂ : ∀ u ∈ l₂, eligible u topic now = false := by
      intro u hu
      have := (List.countP_eq_zero.mp hl₂zero) u hu
      simpa using this
    have ht'false : eligible t' topic now = false := by
      rw [ht']
      simp [eligible]
    have hsecond : (leaseScan topic now (l₁ ++ t' :: l₂)).1 = none := by
      rw [leaseScan_none_iff]
      intro u hu
      rcases List.mem_append.mp hu with hu | hu
      · exact hl₁ u hu
      · rcases List.mem_cons.mp hu with hu | hu
        · rw [hu]; exact ht'false
        · exact hl₂ u hu
    constructor
    · rw [hfst]; rfl
    · show (leaseScan topic now (leaseTask s topic now).2.tasks).1 = none
      have hs : (leaseTask s topic now).2.tasks = l₁ ++ t' :: l₂ := hsnd
      rw [hs]
      exact hsecond

/-- C2 witness: two serialized leases against a single-task store. -/
theorem leaseTask_mutual_exclusion_witness :
    (⟨[⟨"a", "t", "x", "new", 0⟩], []⟩ : Store String).tasks.countP
        (fun t => eligible t "t" 7) = 1
    ∧ ((leaseTask (⟨[⟨"a", "t", "x", "new", 0⟩], []⟩ : Store String) "t"
        7).1.isSome = true
      ∧ (leaseTask (leaseTask (⟨[⟨"a", "t", "x", "new", 0⟩], []⟩ : Store String)
          "t" 7).2 "t" 7).1 = none) :=
  ⟨by decide,
    leaseTask_mutual_exclusion (⟨[⟨"a", "t", "x", "new", 0⟩], []⟩ : Store String)
      "t" 7 (by decide)⟩

/-- C8: contrary to the documented precondition (`topic` non-empty,
`input` present), `handleTaskSubmit` performs no validation after JSON
decoding: a request with an empty topic is stored as a task instead of
being rejected. -/
theorem submitTask_accepts_empty_topic :
    (submitTask (Store.empty String) ⟨"", "", "x", "", 0⟩ "id1" 5).2.tasks
      = [⟨"id1", "", "x", "new", 5⟩] := by decide

/-- C9 counterexample: `handleTaskSubmit` writes `time.Now()` into the
stored task's timestamp — the field the lease logic reads as the lease
time — so a freshly submitted task does not have "no lease_time set"
(the field is not the zero value an unassigned Go `time.Time` holds). -/
theorem submitTask_timestamp_counterexample :
    (findTask (submitTask (Store.empty String) ⟨"", "t", "x", "", 0⟩ "id1"
        5).2.tasks "id1").map (fun t => t.timestamp) = some 5
    ∧ (findTask (submitTask (Store.empty String) ⟨"", "t", "x", "", 0⟩ "id1"
        5).2.tasks "id1").map (fun t => t.timestamp) ≠ some 0 := by decide

/-- C9 (amended): after a successful `submit_task` with a fresh id, the
store contains a task with that id, the given topic and input, status
`"new"`, and timestamp equal to the submission time (the code stores
`time.Now()` in the field later used as the lease time); the task is
appended, so no other task and no result is modified, and the fresh id is
returned. -/
theorem submitTask_spec (s : Store α) (req : Task α) (freshId : String)
    (now : Nat) (hfresh : findTask s.tasks freshId = none) :
    (submitTask s req freshId now).1 = freshId
    ∧ (submitTask s req freshId now).2.tasks
        = s.tasks ++ [⟨freshId, req.topic, req.input, "new", now⟩]
    ∧ (submitTask s req freshId now).2.results = s.results
    ∧ findTask (submitTask s req freshId now).2.tasks freshId
        = some ⟨freshId, req.topic, req.input, "new", now⟩ := by
  have h1 : setTask s.tasks
        { req with id := freshId, status := "new", timestamp := now }
      = s.tasks ++ [⟨freshId, req.topic, req.input, "new", now⟩] :=
    setTask_of_fresh s.tasks _ hfresh
  refine ⟨rfl, h1, rfl, ?_⟩
  exact findTask_setTask_same s.tasks
    { req with id := freshId, status := "new", timestamp := now }

/-- C9 witness: submitting into the empty store. -/
theorem submitTask_spec_witness :
    findTask (Store.empty String).tasks "id1" = none
    ∧ ((submitTask (Store.empty String) ⟨"", "t", "x", "", 0⟩ "id1" 5).1 = "id1"
      ∧ (submitTask (Store.empty String) ⟨"", "t", "x", "", 0⟩ "id1" 5).2.tasks
          = (Store.empty String).tasks ++ [⟨"id1", "t", "x", "new", 5⟩]
      ∧ (submitTask (Store.empty String) ⟨"", "t", "x", "", 0⟩ "id1" 5).2.results
          = (Store.empty String).results
      ∧ findTask (submitTask (Store.empty String) ⟨"", "t", "x", "", 0⟩ "id1"
            5).2.tasks "id1" = some ⟨"id1", "t", "x", "new", 5⟩) :=
  ⟨rfl, submitTask_spec (Store.empty String) ⟨"", "t", "x", "", 0⟩ "id1" 5 rfl⟩

/-- C10: `submit_task` ignores any client-supplied `id`, `status` or
`timestamp` in the request body: with the same fresh id and clock, two
bodies agreeing on topic and input produce identical responses and store
states. -/
theorem submitTask_ignores_client_fields (s : Store α) (req₁ req₂ : Task α)
    (freshId : String) (now : Nat) (htopic : req₁.topic = req₂.topic)
    (hinput : req₁.input = req₂.input) :
    submitTask s req₁ freshId now = submitTask s req₂ freshId now := by
  simp only [submitTask]
  rw [htopic, hinput]

/-- C10 witness: two bodies that differ in id, status and timestamp but
agree on topic and input. -/
theorem submitTask_ignores_client_fields_witness :
    (⟨"cid", "t", "x", "completed", 99⟩ : Task String).topic
        = (⟨"other", "t", "x", "pending", 7⟩ : Task String).topic
    ∧ (⟨"cid", "t", "x", "completed", 99⟩ : Task String).input
        = (⟨"other", "t", "x", "pending", 7⟩ : Task String).input
    ∧ submitTask (Store.empty String) ⟨"cid", "t", "x", "completed", 99⟩ "id1" 5
        = submitTask (Store.empty String) ⟨"other", "t", "x", "pending", 7⟩ "id1" 5 :=
  ⟨rfl, rfl,
    submitTask_ignores_client_fields (Store.empty String)
      ⟨"cid", "t", "x", "completed", 99⟩ ⟨"other", "t", "x", "pending", 7⟩
      "id1" 5 rfl rfl⟩

end Workpluck
